import Mathlib

/-!
Shallow embedding of `nuit_info_scraper.py` (class `NuitInfoScraper`).

The scraper fetches a challenge listing page and one page per challenge,
extracts team names with a heuristic validator, aggregates them into an
insertion-ordered mapping from team name to a per-team summary, persists
the state as a JSON document, and serves a leaderboard sorted by
`total_projects`.

Modelling choices:
* Python `dict` (insertion-ordered) is modelled as an association list
  `List (String × α)`: updating an existing key keeps its position,
  inserting a new key appends at the end (`dictInsert`).
* An HTTP fetch outcome is modelled by `Fetch`: either a raised
  exception (`exn`, covering transport errors and timeouts) or a
  response with a status code and an already-parsed body.
* A page body is pre-parsed: the listing page is the list of its anchor
  elements (`Anchor`), a challenge page is `Option (List String)` — the
  optional team container with the raw text of its `list-group-item`
  anchors (`none` models a page lacking the expected container class).
* `datetime.now().isoformat()` is modelled by an explicit clock argument
  `now : String` passed to the operations that read the clock.
* Python string helpers (`str.lower`, `str.isupper`, `str.strip`,
  `str.isdigit`, substring `in`) are given executable models below;
  `urljoin` (external `urllib`) is modelled for the absolute base URL
  used by the scraper.
-/

namespace NuitInfo

/-- Whitespace characters removed by Python's `str.strip` /
`get_text(strip=True)`. -/
def pySpace (c : Char) : Bool :=
  c = ' ' || c = '\t' || c = '\n' || c = '\r'

/-- Model of Python `str.strip()`: drop leading and trailing whitespace. -/
def pyStrip (s : String) : String :=
  ⟨((s.data.dropWhile pySpace).reverse.dropWhile pySpace).reverse⟩

/-- Model of Python `str.lower()` on one character: ASCII lowering plus
the accented capitals relevant to the scraped French pages. -/
def pyLowerChar (c : Char) : Char :=
  if c = 'É' then 'é'
  else if c = 'È' then 'è'
  else if c = 'Ê' then 'ê'
  else if c = 'À' then 'à'
  else if c = 'Ç' then 'ç'
  else c.toLower

/-- Model of Python `str.lower()`. -/
def pyLower (s : String) : String :=
  ⟨s.data.map pyLowerChar⟩

/-- Model of Python `str.isupper()` on the one-character string `name[0]`:
ASCII uppercase plus the accented capitals relevant here. -/
def pyIsUpperChar (c : Char) : Bool :=
  c.isUpper || c = 'É' || c = 'È' || c = 'Ê' || c = 'À' || c = 'Ç'

/-- Model of Python substring membership `needle in hay` on character
lists: some suffix of `hay` starts with `needle`. -/
def containsSub (needle : List Char) : List Char → Bool
  | [] => needle.isEmpty
  | c :: cs => needle.isPrefixOf (c :: cs) || containsSub needle cs

/-- The fixed blocklist `junk_keywords` of `is_valid_team_name`. -/
def junk_keywords : List String :=
  ["document", "discord", "conditions", "inscription",
   "voir", "détails", "plus", "page", "défi", "challenge",
   "supprimer", "modifier"]

/-- `NuitInfoScraper.is_valid_team_name`: rejects empty names, names of
length `< 2` or `> 50`, names whose lower-cased form contains a blocklist
keyword, and names whose first character is not upper-case.  (`headD ' '`
is only reached with a non-empty `name`, where it is `name[0]`.) -/
def is_valid_team_name (name : String) : Bool :=
  if name = "" || name.length < 2 || name.length > 50 then false
  else
    let name_lower := pyLower name
    if junk_keywords.any (fun w => containsSub w.data name_lower.data) then false
    else if !(pyIsUpperChar (name.data.headD ' ')) then false
    else true

/-- An anchor element of the listing page: its `href` attribute and its
raw visible text (`get_text(strip=True)` is applied at the use site). -/
structure Anchor where
  href : String
  text : String
deriving Repr, DecidableEq

/-- A challenge record `{'id': ..., 'name': ..., 'url': ...}`. -/
structure Challenge where
  id : String
  name : String
  url : String
deriving Repr, DecidableEq

/-- Python `href.split('/')[-1]`: the characters after the last `'/'`
(the whole string when there is no `'/'`). -/
def lastComp (l : List Char) : List Char :=
  (l.reverse.takeWhile (fun c => c ≠ '/')).reverse

/-- Python `s.isdigit()` for ASCII digit strings: non-empty and all
digits. -/
def pyIsDigitStr (l : List Char) : Bool :=
  !l.isEmpty && l.all Char.isDigit

/-- `self.base_url`. -/
def base_url : String := "https://www.nuitdelinfo.com"

/-- Model of `urllib.parse.urljoin(base, href)` for the absolute
`base_url` used by the scraper. -/
def urljoin (base href : String) : String :=
  if containsSub "://".data href.data then href
  else if href.data.headD ' ' = '/' then base ++ href
  else base ++ "/" ++ href

/-- The anchor filter of `fetch_challenges_list`:
`'/inscription/defis/' in href and href.split('/')[-1].isdigit()`. -/
def hrefQualifies (href : String) : Bool :=
  containsSub "/inscription/defis/".data href.data
    && pyIsDigitStr (lastComp href.data)

/-- The discarded UI labels `['', 'Voir', 'Détails', 'Voir plus']`. -/
def ui_labels : List String := ["", "Voir", "Détails", "Voir plus"]

/-- The pre-dedup challenge accumulation loop of `fetch_challenges_list`:
for each qualifying anchor whose stripped text is not a UI label, append
a `Challenge` whose id is the trailing numeric path component. -/
def challengeAnchors (anchors : List Anchor) : List Challenge :=
  anchors.foldl
    (fun acc a =>
      if hrefQualifies a.href then
        let cid : String := ⟨lastComp a.href.data⟩
        let name := pyStrip a.text
        if name ∈ ui_labels then acc
        else acc ++ [⟨cid, name, urljoin base_url a.href⟩]
      else acc)
    []

/-- Insertion-ordered dict update `d[k] = v`: an existing key keeps its
position and gets the new value, a new key is appended at the end. -/
def dictInsert {α : Type} (k : String) (v : α) :
    List (String × α) → List (String × α)
  | [] => [(k, v)]
  | (k', v') :: rest =>
    if k' = k then (k, v) :: rest else (k', v') :: dictInsert k v rest

/-- Dict lookup `d.get(k)`: the value of the first (unique) entry with
key `k`. -/
def dictFind {α : Type} (k : String) : List (String × α) → Option α
  | [] => none
  | (k', v) :: rest => if k' = k then some v else dictFind k rest

/-- `unique = {c['id']: c for c in challenges}`: fold the records into a
dict keyed by id, so the last record with a given id wins and keys keep
the order of their first appearance. -/
def dedupById (cs : List Challenge) : List (String × Challenge) :=
  cs.foldl (fun d c => dictInsert c.id c d) []

/-- Outcome of one `self.session.get(...)`: a raised exception
(transport failure or timeout), or a response with a status code and a
pre-parsed body. -/
inductive Fetch (α : Type) where
  | exn : Fetch α
  | http (status : Nat) (body : α) : Fetch α

/-- `NuitInfoScraper.fetch_challenges_list`: on an exception or a
non-200 status return `[]`; otherwise collect qualifying anchors and
deduplicate by id. -/
def fetch_challenges_list (page : Fetch (List Anchor)) : List Challenge :=
  match page with
  | .exn => []
  | .http status body =>
    if status ≠ 200 then []
    else (dedupById (challengeAnchors body)).map Prod.snd

/-- A record yielded by `fetch_teams_for_challenge`:
`{'name': t, 'challenge_id': ..., 'challenge_name': ...}`. -/
structure TeamRec where
  name : String
  challenge_id : String
  challenge_name : String
deriving Repr, DecidableEq

/-- Model of accumulating strings into a Python `set` and then iterating
over it: duplicates collapse; iteration order is modelled as order of
first insertion. -/
def pySetDedup (l : List String) : List String :=
  l.foldl (fun acc t => if t ∈ acc then acc else acc ++ [t]) []

/-- `NuitInfoScraper.fetch_teams_for_challenge`: on an exception or a
non-200 status return `[]`; if the expected container `div` is absent
return `[]`; otherwise strip each `list-group-item` anchor text, keep
those passing the validator, collapse duplicates via a set, and tag each
surviving name with the challenge id and name. -/
def fetch_teams_for_challenge (page : Fetch (Option (List String)))
    (challenge_id challenge_name : String) : List TeamRec :=
  match page with
  | .exn => []
  | .http status body =>
    if status ≠ 200 then []
    else
      match body with
      | none => []
      | some items =>
        let valid := (items.map pyStrip).filter is_valid_team_name
        (pySetDedup valid).map (fun t => ⟨t, challenge_id, challenge_name⟩)

/-- A project entry appended to a team's project list:
`{'name': challenge_name, 'challenge_id': ..., 'completed': False}`. -/
structure Project where
  name : String
  challenge_id : String
  completed : Bool
deriving Repr, DecidableEq

/-- A team summary value of the `all_teams` / `teams_data` mapping. -/
structure Team where
  projects : List Project
  total_projects : Nat
  completed_projects : Nat
  progress : Nat
  last_updated : String
deriving Repr, DecidableEq

/-- The scraper's mutable state: `self.teams_data` and
`self.challenges_data` (both insertion-ordered dicts). -/
structure ScraperState where
  teams_data : List (String × Team)
  challenges_data : List (String × Challenge)
deriving Repr, DecidableEq

/-- The fixed remote input of one aggregation pass: the listing-page
fetch outcome, and the fetch outcome of each challenge detail page,
keyed by challenge id. -/
structure Site where
  challengesPage : Fetch (List Anchor)
  teamPages : String → Fetch (Option (List String))

/-- The fresh team value created on first sighting of a name. -/
def initTeam (now : String) : Team :=
  { projects := [], total_projects := 0, completed_projects := 0,
    progress := 0, last_updated := now }

/-- One iteration of the inner loop of `fetch_all_data`: create the
team entry if the name is new, then append a project for this challenge
unless one with the same challenge id is already present. -/
def addTeamRec (now : String) (acc : List (String × Team)) (t : TeamRec) :
    List (String × Team) :=
  let acc1 :=
    if (dictFind t.name acc).isSome then acc
    else acc ++ [(t.name, initTeam now)]
  match dictFind t.name acc1 with
  | none => acc1
  | some td =>
    if td.projects.any (fun p => p.challenge_id = t.challenge_id) then acc1
    else
      dictInsert t.name
        { td with projects :=
            td.projects ++ [⟨t.challenge_name, t.challenge_id, false⟩] }
        acc1

/-- The final loop of `fetch_all_data`: set `total_projects` to the
project count and reset `progress` to 0. -/
def finalizeTeam (d : Team) : Team :=
  { d with total_projects := d.projects.length, progress := 0 }

/-- `NuitInfoScraper.fetch_all_data`: rebuild `challenges_data` from the
listing page, fold every challenge's team records into a fresh
`all_teams` dict, finalize the counters, overwrite the whole state with
the result, and return the new team mapping.  The prior state `st` is
never read — the pass fully replaces it. -/
def fetch_all_data (site : Site) (now : String) (_st : ScraperState) :
    ScraperState × List (String × Team) :=
  let challenges := fetch_challenges_list site.challengesPage
  let challenges_data := dedupById challenges
  let all_teams :=
    challenges.foldl
      (fun acc c =>
        (fetch_teams_for_challenge (site.teamPages c.id) c.id c.name).foldl
          (addTeamRec now) acc)
      []
  let all_teams := all_teams.map (fun p => (p.1, finalizeTeam p.2))
  (⟨all_teams, challenges_data⟩, all_teams)

/-- All team names scraped by one pass over `site`: the names of every
record returned by `fetch_teams_for_challenge` across the fetched
challenges. -/
def scrapedNames (site : Site) : List String :=
  (fetch_challenges_list site.challengesPage).flatMap
    (fun c =>
      (fetch_teams_for_challenge (site.teamPages c.id) c.id c.name).map
        TeamRec.name)

/-- `NuitInfoScraper.get_leaderboard`: the team mapping re-ordered by
descending `total_projects`.  Python's `sorted(..., reverse=True)` is a
stable sort, modelled by `mergeSort` with the reversed comparison. -/
def get_leaderboard (st : ScraperState) : List (String × Team) :=
  st.teams_data.mergeSort
    (fun a b => decide (b.2.total_projects ≤ a.2.total_projects))

/-- A JSON value, the unit of persistence (`json.dump` / `json.load`
faithfully round-trip this structure through the file's text). -/
inductive JValue where
  | str : String → JValue
  | num : Nat → JValue
  | jbool : Bool → JValue
  | arr : List JValue → JValue
  | obj : List (String × JValue) → JValue

/-- The JSON document written for one project dict. -/
def encodeProject (p : Project) : JValue :=
  .obj [("name", .str p.name), ("challenge_id", .str p.challenge_id),
        ("completed", .jbool p.completed)]

/-- The JSON document written for one team dict. -/
def encodeTeam (t : Team) : JValue :=
  .obj [("projects", .arr (t.projects.map encodeProject)),
        ("total_projects", .num t.total_projects),
        ("completed_projects", .num t.completed_projects),
        ("progress", .num t.progress),
        ("last_updated", .str t.last_updated)]

/-- The JSON document written for one challenge dict. -/
def encodeChallenge (c : Challenge) : JValue :=
  .obj [("id", .str c.id), ("name", .str c.name), ("url", .str c.url)]

/-- The JSON object written for the `teams` mapping. -/
def encodeTeams (ts : List (String × Team)) : JValue :=
  .obj (ts.map (fun p => (p.1, encodeTeam p.2)))

/-- The JSON object written for the `challenges` mapping. -/
def encodeChallenges (cs : List (String × Challenge)) : JValue :=
  .obj (cs.map (fun p => (p.1, encodeChallenge p.2)))

/-- `NuitInfoScraper.save_to_json`: the JSON document
`{'teams': ..., 'challenges': ..., 'last_updated': now}` written (whole
file overwritten) to `teams_data.json`. -/
def save_to_json (st : ScraperState) (now : String) : JValue :=
  .obj [("teams", encodeTeams st.teams_data),
        ("challenges", encodeChallenges st.challenges_data),
        ("last_updated", .str now)]

/-- Decode one project dict back into the typed model. -/
def decodeProject : JValue → Option Project
  | .obj fields =>
    match dictFind "name" fields, dictFind "challenge_id" fields,
        dictFind "completed" fields with
    | some (.str n), some (.str cid), some (.jbool c) => some ⟨n, cid, c⟩
    | _, _, _ => none
  | _ => none

/-- Decode a JSON array elementwise, failing if any element fails. -/
def decodeList {α : Type} (f : JValue → Option α) : List JValue → Option (List α)
  | [] => some []
  | v :: vs =>
    match f v, decodeList f vs with
    | some a, some as' => some (a :: as')
    | _, _ => none

/-- Decode one team dict back into the typed model. -/
def decodeTeam : JValue → Option Team
  | .obj fields =>
    match dictFind "projects" fields, dictFind "total_projects" fields,
        dictFind "completed_projects" fields, dictFind "progress" fields,
        dictFind "last_updated" fields with
    | some (.arr ps), some (.num tp), some (.num cp), some (.num pr),
        some (.str lu) =>
      match decodeList decodeProject ps with
      | some projs => some ⟨projs, tp, cp, pr, lu⟩
      | none => none
    | _, _, _, _, _ => none
  | _ => none

/-- Decode one challenge dict back into the typed model. -/
def decodeChallenge : JValue → Option Challenge
  | .obj fields =>
    match dictFind "id" fields, dictFind "name" fields,
        dictFind "url" fields with
    | some (.str i), some (.str n), some (.str u) => some ⟨i, n, u⟩
    | _, _, _ => none
  | _ => none

/-- Decode the field list of a JSON object valuewise. -/
def decodeMapFields {α : Type} (f : JValue → Option α) :
    List (String × JValue) → Option (List (String × α))
  | [] => some []
  | (k, v) :: rest =>
    match f v, decodeMapFields f rest with
    | some a, some m => some ((k, a) :: m)
    | _, _ => none

/-- Decode a JSON object into a typed mapping, valuewise. -/
def decodeMap {α : Type} (f : JValue → Option α) :
    JValue → Option (List (String × α))
  | .obj fields => decodeMapFields f fields
  | _ => none

/-- Decode the `teams` mapping. -/
def decodeTeams : JValue → Option (List (String × Team)) :=
  decodeMap decodeTeam

/-- Decode the `challenges` mapping. -/
def decodeChallenges : JValue → Option (List (String × Challenge)) :=
  decodeMap decodeChallenge

/-- Contents of `teams_data.json` as seen by `load_from_json`: the file
may be missing, hold text that is not valid JSON (`malformed`), or hold
a JSON document. -/
inductive FileContent where
  | missing
  | malformed
  | content (doc : JValue)

/-- `NuitInfoScraper.load_from_json`: silently keep the current state
when the file is missing; let the parse failure of a malformed file
propagate (`.error ()`, the state is not assigned); on a JSON object,
populate the state from its `teams` / `challenges` keys, each defaulting
to the empty dict `{}` when absent.  A non-object document also raises
(`data.get` fails on it) and is mapped to `.error ()`; a document whose
`teams` / `challenges` values do not decode into the typed model is
outside the typed state and is likewise mapped to `.error ()`. -/
def load_from_json (file : FileContent) (st : ScraperState) :
    Except Unit ScraperState :=
  match file with
  | .missing => .ok st
  | .malformed => .error ()
  | .content doc =>
    match doc with
    | .obj fields =>
      let tj := (dictFind "teams" fields).getD (.obj [])
      let cj := (dictFind "challenges" fields).getD (.obj [])
      match decodeTeams tj, decodeChallenges cj with
      | some t, some c => .ok ⟨t, c⟩
      | _, _ => .error ()
    | _ => .error ()

/-- Keys of a dict in order (insertion order of first appearance). -/
def firstDedup (l : List String) : List String :=
  l.foldl (fun acc i => if i ∈ acc then acc else acc ++ [i]) []

/-- The last challenge record in a list carrying a given id, if any. -/
def findLastById (i : String) : List Challenge → Option Challenge
  | [] => none
  | c :: cs =>
    match findLastById i cs with
    | some c' => some c'
    | none => if c.id = i then some c else none

/-- Replace a team's `last_updated` timestamp, keeping everything else. -/
def stampTeam (now : String) (td : Team) : Team :=
  { td with last_updated := now }

/-- Apply a function to every value of a dict, keeping keys and order. -/
def mapVal (g : Team → Team) (d : List (String × Team)) :
    List (String × Team) :=
  d.map (fun p => (p.1, g p.2))

/-- A concrete site used to instantiate theorems with hypotheses: one
challenge page with id 42 and one valid team name on it. -/
def sampleSite : Site where
  challengesPage :=
    .http 200 [⟨"/inscription/defis/42", "Relever le défi"⟩]
  teamPages := fun i =>
    if i = "42" then .http 200 (some ["Team Alpha", "Voir plus"]) else .exn

/-- A teams mapping with `total_projects` values `[5, 1, 3]`, used to
instantiate the leaderboard ordering example. -/
def demoTeams : List (String × Team) :=
  [("A", ⟨[], 5, 0, 0, "t"⟩), ("B", ⟨[], 1, 0, 0, "t"⟩),
   ("C", ⟨[], 3, 0, 0, "t"⟩)]

/-! ### Generic fold and dict lemmas -/

/-- A fold preserves an invariant that every step preserves. -/
theorem foldl_preserve {α β : Type} (P : β → Prop) (f : β → α → β) :
    ∀ l : List α, (∀ b ∈ l, ∀ acc, P acc → P (f acc b)) →
      ∀ acc, P acc → P (l.foldl f acc) := by
  intro l
  induction l with
  | nil => intro _ acc h; exact h
  | cons b bs ih =>
    intro hstep acc hacc
    exact ih (fun x hx => hstep x (List.mem_cons_of_mem _ hx))
      (f acc b) (hstep b (List.mem_cons_self _ _) acc hacc)

/-- Two folds whose steps commute with a translation `h` produce
`h`-related results. -/
theorem foldl_comm_map {α β : Type} (f1 f2 : β → α → β) (h : β → β)
    (hc : ∀ acc b, f2 (h acc) b = h (f1 acc b)) :
    ∀ (l : List α) (acc : β), l.foldl f2 (h acc) = h (l.foldl f1 acc) := by
  intro l
  induction l with
  | nil => intro acc; rfl
  | cons b bs ih =>
    intro acc
    rw [List.foldl_cons, List.foldl_cons, hc, ih]

/-- Lookup after insert: the inserted key maps to the new value, other
keys are unaffected. -/
theorem dictFind_dictInsert {α : Type} (i k : String) (v : α)
    (d : List (String × α)) :
    dictFind i (dictInsert k v d) = if k = i then some v else dictFind i d := by
  induction d with
  | nil => simp [dictInsert, dictFind]
  | cons q rest ih =>
    obtain ⟨k', v'⟩ := q
    by_cases hk : k' = k
    · subst hk
      by_cases hi : k' = i
      · subst hi; simp [dictInsert, dictFind]
      · simp [dictInsert, dictFind, hi]
    · by_cases hi : k' = i
      · subst hi
        have hne : ¬(k = k') := fun h => hk h.symm
        simp [dictInsert, dictFind, hk, hne]
      · simp [dictInsert, dictFind, hk, hi, ih]

/-- Every entry of `dictInsert k v d` is the new entry or one of `d`. -/
theorem mem_dictInsert {α : Type} (p : String × α) (k : String) (v : α)
    (d : List (String × α)) (hp : p ∈ dictInsert k v d) :
    p = (k, v) ∨ p ∈ d := by
  induction d with
  | nil => simpa [dictInsert] using hp
  | cons q rest ih =>
    obtain ⟨k', v'⟩ := q
    by_cases hk : k' = k
    · subst hk
      simp only [dictInsert, if_pos rfl] at hp
      rcases List.mem_cons.mp hp with h | h
      · exact Or.inl h
      · exact Or.inr (List.mem_cons_of_mem _ h)
    · simp only [dictInsert, if_neg hk] at hp
      rcases List.mem_cons.mp hp with h | h
      · exact Or.inr (h ▸ List.mem_cons_self _ _)
      · rcases ih h with h1 | h1
        · exact Or.inl h1
        · exact Or.inr (List.mem_cons_of_mem _ h1)

/-- A successful lookup exhibits an entry of the dict. -/
theorem dictFind_mem {α : Type} (n : String) (d : List (String × α)) (v : α)
    (h : dictFind n d = some v) : (n, v) ∈ d := by
  induction d with
  | nil => simp [dictFind] at h
  | cons q rest ih =>
    obtain ⟨k', v'⟩ := q
    by_cases hk : k' = n
    · subst hk
      simp only [dictFind, if_pos] at h
      injection h with h
      subst h
      exact List.mem_cons_self _ _
    · simp only [dictFind, if_neg hk] at h
      exact List.mem_cons_of_mem _ (ih h)

/-- Keys after insert: unchanged when the key exists, appended when new. -/
theorem keys_dictInsert {α : Type} (k : String) (v : α)
    (d : List (String × α)) :
    (dictInsert k v d).map Prod.fst =
      if k ∈ d.map Prod.fst then d.map Prod.fst
      else d.map Prod.fst ++ [k] := by
  induction d with
  | nil => simp [dictInsert]
  | cons q rest ih =>
    obtain ⟨k', v'⟩ := q
    by_cases hk : k' = k
    · subst hk; simp [dictInsert]
    · have hne : ¬(k = k') := fun h => hk h.symm
      by_cases hmem : k ∈ rest.map Prod.fst
      · simp [dictInsert, hk, ih, hmem, hne]
      · simp [dictInsert, hk, ih, hmem, hne]

/-- Membership in the dedup-keeping-first fold. -/
theorem mem_foldl_dedup (l : List String) :
    ∀ (acc : List String) (x : String),
      x ∈ l.foldl (fun acc i => if i ∈ acc then acc else acc ++ [i]) acc ↔
        x ∈ acc ∨ x ∈ l := by
  induction l with
  | nil => simp
  | cons b bs ih =>
    intro acc x
    rw [List.foldl_cons]
    by_cases hb : b ∈ acc
    · rw [if_pos hb, ih]
      constructor
      · rintro (h | h)
        · exact Or.inl h
        · exact Or.inr (List.mem_cons_of_mem _ h)
      · rintro (h | h)
        · exact Or.inl h
        · rcases List.mem_cons.mp h with rfl | h
          · exact Or.inl hb
          · exact Or.inr h
    · rw [if_neg hb, ih]
      constructor
      · rintro (h | h)
        · rcases List.mem_append.mp h with h | h
          · exact Or.inl h
          · rcases List.mem_singleton.mp h with rfl
            exact Or.inr (List.mem_cons_self _ _)
        · exact Or.inr (List.mem_cons_of_mem _ h)
      · rintro (h | h)
        · exact Or.inl (List.mem_append_left _ h)
        · rcases List.mem_cons.mp h with rfl | h
          · exact Or.inl (List.mem_append_right _ (List.mem_singleton.mpr rfl))
          · exact Or.inr h

/-- The dedup-keeping-first fold keeps the accumulator duplicate-free. -/
theorem nodup_foldl_dedup :
    ∀ (l acc : List String), acc.Nodup →
      (l.foldl (fun acc i => if i ∈ acc then acc else acc ++ [i]) acc).Nodup := by
  intro l
  induction l with
  | nil => intro acc h; exact h
  | cons b bs ih =>
    intro acc h
    rw [List.foldl_cons]
    by_cases hb : b ∈ acc
    · rw [if_pos hb]; exact ih acc h
    · rw [if_neg hb]
      refine ih _ ?_
      simp [List.nodup_append, h, hb]

/-- `pySetDedup` keeps exactly the members of its input. -/
theorem mem_pySetDedup (l : List String) (x : String) :
    x ∈ pySetDedup l ↔ x ∈ l := by
  have := mem_foldl_dedup l [] x
  simpa [pySetDedup] using this

/-- `firstDedup` keeps exactly the members of its input. -/
theorem mem_firstDedup (l : List String) (x : String) :
    x ∈ firstDedup l ↔ x ∈ l := by
  have := mem_foldl_dedup l [] x
  simpa [firstDedup] using this

/-- `firstDedup` output is duplicate-free. -/
theorem nodup_firstDedup (l : List String) : (firstDedup l).Nodup := by
  simpa [firstDedup] using nodup_foldl_dedup l [] List.nodup_nil

/-! ### Challenge dedup lemmas -/

/-- Lookup in the id-keyed fold: the last record with the looked-up id
wins; absent ids fall back to the initial dict. -/
theorem dictFind_foldl_insert (i : String) :
    ∀ (cs : List Challenge) (d : List (String × Challenge)),
      dictFind i (cs.foldl (fun d c => dictInsert c.id c d) d) =
        match findLastById i cs with
        | some c => some c
        | none => dictFind i d := by
  intro cs
  induction cs with
  | nil => intro d; simp [findLastById]
  | cons c cs ih =>
    intro d
    rw [List.foldl_cons, ih]
    cases h : findLastById i cs with
    | some c' => simp [findLastById, h]
    | none =>
      by_cases hc : c.id = i
      · simp [findLastById, h, hc, dictFind_dictInsert]
      · simp [findLastById, h, hc, dictFind_dictInsert]

/-- In `dedupById`, each id maps to the last record carrying it. -/
theorem dictFind_dedupById (i : String) (cs : List Challenge) :
    dictFind i (dedupById cs) = findLastById i cs := by
  have h := dictFind_foldl_insert i cs []
  rw [dedupById] at *
  cases hf : findLastById i cs <;> simp [hf] at h <;> simp [h, dictFind]

/-- Keys of the id-keyed fold are the first-appearance dedup of the
inserted id sequence. -/
theorem keys_foldl_insert :
    ∀ (cs : List Challenge) (d : List (String × Challenge)),
      (cs.foldl (fun d c => dictInsert c.id c d) d).map Prod.fst =
        (cs.map Challenge.id).foldl
          (fun acc i => if i ∈ acc then acc else acc ++ [i])
          (d.map Prod.fst) := by
  intro cs
  induction cs with
  | nil => intro d; rfl
  | cons c cs ih =>
    intro d
    rw [List.map_cons, List.foldl_cons, List.foldl_cons, ih, keys_dictInsert]

/-- Keys of `dedupById` in order: first appearance of each id. -/
theorem keys_dedupById (cs : List Challenge) :
    (dedupById cs).map Prod.fst = firstDedup (cs.map Challenge.id) := by
  simpa [dedupById, firstDedup] using keys_foldl_insert cs []

/-- Every entry of `dedupById` is keyed by its record's id. -/
theorem dedupById_entry_id (cs : List Challenge) :
    ∀ p ∈ dedupById cs, p.2.id = p.1 := by
  rw [dedupById]
  refine foldl_preserve
    (fun d : List (String × Challenge) => ∀ p ∈ d, p.2.id = p.1)
    (fun d c => dictInsert c.id c d) cs ?_ [] (by simp)
  intro c _ d hd p hp
  rcases mem_dictInsert p c.id c d hp with h | h
  · rw [h]
  · exact hd p h

/-! ### Claim theorems: challenge list parsing -/

/-- Claim C4: for every input page, `fetch_challenges_list` returns
exactly one `Challenge` per distinct numeric id among qualifying
anchors: it is the id-dedup of the qualifying-anchor records, its id
list is duplicate-free and lists ids in order of first appearance, an id
appears iff some qualifying anchor produced it, each id maps to the
last-seen record with that id (so the last anchor's name and url win),
and two anchors to `/inscription/defis/42` with texts `Alpha` then
`Alpha2` yield exactly one challenge with id `"42"` and name
`"Alpha2"`. -/
theorem claim_C4_challenge_list_dedup (anchors : List Anchor) :
    (fetch_challenges_list (.http 200 anchors) =
        (dedupById (challengeAnchors anchors)).map Prod.snd)
    ∧ ((fetch_challenges_list (.http 200 anchors)).map Challenge.id).Nodup
    ∧ (fetch_challenges_list (.http 200 anchors)).map Challenge.id =
        firstDedup ((challengeAnchors anchors).map Challenge.id)
    ∧ (∀ i, i ∈ (fetch_challenges_list (.http 200 anchors)).map Challenge.id ↔
        i ∈ (challengeAnchors anchors).map Challenge.id)
    ∧ (∀ i, dictFind i (dedupById (challengeAnchors anchors)) =
        findLastById i (challengeAnchors anchors))
    ∧ fetch_challenges_list (.http 200
        [⟨"/inscription/defis/42", "Alpha"⟩,
         ⟨"/inscription/defis/42", "Alpha2"⟩]) =
      [⟨"42", "Alpha2", "https://www.nuitdelinfo.com/inscription/defis/42"⟩] := by
  have hres : fetch_challenges_list (.http 200 anchors) =
      (dedupById (challengeAnchors anchors)).map Prod.snd := by
    simp [fetch_challenges_list]
  have hids : (fetch_challenges_list (.http 200 anchors)).map Challenge.id =
      (dedupById (challengeAnchors anchors)).map Prod.fst := by
    rw [hres, List.map_map]
    exact List.map_congr_left (fun p hp => dedupById_entry_id _ p hp)
  refine ⟨hres, ?_, ?_, ?_, fun i => dictFind_dedupById i _, by decide⟩
  · rw [hids, keys_dedupById]; exact nodup_firstDedup _
  · rw [hids, keys_dedupById]
  · intro i
    rw [hids, keys_dedupById, mem_firstDedup]

/-! ### Team name validator -/

/-- Characterization of `is_valid_team_name`: accepted iff non-empty,
length in `[2, 50]`, no blocklist keyword occurs in the lower-cased
name, and the first character is upper-case. -/
theorem is_valid_team_name_iff (name : String) :
    is_valid_team_name name = true ↔
      (name ≠ "" ∧ 2 ≤ name.length ∧ name.length ≤ 50 ∧
        (∀ w ∈ junk_keywords, containsSub w.data (pyLower name).data = false) ∧
        pyIsUpperChar (name.data.headD ' ') = true) := by
  constructor
  · intro h
    simp only [is_valid_team_name] at h
    split_ifs at h with h1 h2 h3
    simp only [Bool.or_eq_true, decide_eq_true_eq, not_or] at h1
    obtain ⟨⟨hne, hlt⟩, hgt⟩ := h1
    simp only [Bool.not_eq_true, List.any_eq_false] at h2
    simp only [Bool.not_eq_true'] at h3
    refine ⟨hne, by omega, by omega, ?_, by simpa using h3⟩
    intro w hw
    have := h2 w hw
    simpa using this
  · rintro ⟨hne, hlen2, hlen50, hkw, hup⟩
    simp only [is_valid_team_name]
    have c1 : (decide (name = "") || decide (name.length < 2) ||
        decide (name.length > 50)) = false := by
      simp [hne]; omega
    rw [if_neg (by simp [c1])]
    have c2 : junk_keywords.any
        (fun w => containsSub w.data (pyLower name).data) = false := by
      rw [List.any_eq_false]
      intro w hw
      simp [hkw w hw]
    rw [if_neg (by simp [c2])]
    have c3 : (!pyIsUpperChar (name.data.headD ' ')) = false := by
      rw [hup]; rfl
    rw [if_neg (by rw [c3]; simp)]

/-- Claim C3: `is_valid_team_name name` is true iff `name` is
non-empty, its length is between 2 and 50 inclusive, its lower-cased
form contains no blocklist keyword as a substring, and its first
character is upper-case; in particular `"A"` and `"ab"` are rejected,
`"Team Alpha"` is accepted, and `"Voir plus"` and `"Discord Team"` are
rejected. -/
theorem claim_C3_validator (name : String) :
    (is_valid_team_name name = true ↔
      (name ≠ "" ∧ 2 ≤ name.length ∧ name.length ≤ 50 ∧
        (∀ w ∈ junk_keywords, containsSub w.data (pyLower name).data = false) ∧
        pyIsUpperChar (name.data.headD ' ') = true))
    ∧ is_valid_team_name "A" = false
    ∧ is_valid_team_name "ab" = false
    ∧ is_valid_team_name "Team Alpha" = true
    ∧ is_valid_team_name "Voir plus" = false
    ∧ is_valid_team_name "Discord Team" = false :=
  ⟨is_valid_team_name_iff name, by decide, by decide, by decide, by decide,
    by decide⟩

/-! ### Error handling of the fetchers -/

/-- Claim C7: on a raised transport exception, on a non-200 HTTP
status, and on a page lacking the expected container, both fetchers
return the empty list instead of raising (both are total functions of
the fetch outcome), so an aggregation pass continues with the remaining
challenges. -/
theorem claim_C7_fetch_failures (s1 s2 : Nat) (bodyA : List Anchor)
    (bodyB : Option (List String)) (cid cname : String) :
    fetch_challenges_list .exn = []
    ∧ (s1 ≠ 200 → fetch_challenges_list (.http s1 bodyA) = [])
    ∧ fetch_teams_for_challenge .exn cid cname = []
    ∧ (s2 ≠ 200 → fetch_teams_for_challenge (.http s2 bodyB) cid cname = [])
    ∧ fetch_teams_for_challenge (.http 200 none) cid cname = [] := by
  refine ⟨rfl, ?_, rfl, ?_, by simp [fetch_teams_for_challenge]⟩
  · intro h; simp [fetch_challenges_list, h]
  · intro h; simp [fetch_teams_for_challenge, h]

/-- Witness for C7 at status 404 / 500. -/
theorem claim_C7_witness :
    fetch_challenges_list (.http 404 []) = []
    ∧ fetch_teams_for_challenge (.http 500 (some ["Team Alpha"])) "1" "c" = [] :=
  ⟨(claim_C7_fetch_failures 404 500 [] (some ["Team Alpha"]) "1" "c").2.1
      (by decide),
   (claim_C7_fetch_failures 404 500 [] (some ["Team Alpha"]) "1" "c").2.2.2.1
      (by decide)⟩

/-! ### Leaderboard -/

/-- Claim C5: `get_leaderboard` returns the same teams (a permutation
of the mapping), ordered by descending `total_projects`, with ties kept
in the insertion order of the underlying mapping (the filter at any
fixed `total_projects` value is unchanged); for `total_projects` values
`[5, 1, 3]` the leaderboard order of those values is `[5, 3, 1]`. -/
theorem claim_C5_leaderboard (st : ScraperState) (v : Nat) :
    (get_leaderboard st).Perm st.teams_data
    ∧ List.Pairwise (fun a b : String × Team =>
        b.2.total_projects ≤ a.2.total_projects) (get_leaderboard st)
    ∧ ((get_leaderboard st).filter (fun p => p.2.total_projects = v) =
       st.teams_data.filter (fun p => p.2.total_projects = v))
    ∧ (get_leaderboard ⟨demoTeams, []⟩).map (fun p => p.2.total_projects) =
        [5, 3, 1] := by
  have htrans : ∀ a b c : String × Team,
      (decide (b.2.total_projects ≤ a.2.total_projects)) = true →
      (decide (c.2.total_projects ≤ b.2.total_projects)) = true →
      (decide (c.2.total_projects ≤ a.2.total_projects)) = true := by
    intro a b c h1 h2
    simp only [decide_eq_true_eq] at *
    omega
  have htotal : ∀ a b : String × Team,
      ((decide (b.2.total_projects ≤ a.2.total_projects)) ||
       (decide (a.2.total_projects ≤ b.2.total_projects))) = true := by
    intro a b
    simp only [Bool.or_eq_true, decide_eq_true_eq]
    omega
  refine ⟨List.mergeSort_perm _ _, ?_, ?_, ?_⟩
  · have := List.sorted_mergeSort htrans htotal st.teams_data
    exact this.imp (fun h => by simpa using h)
  · have hf : (st.teams_data.filter
        (fun p => p.2.total_projects = v)).Sublist st.teams_data :=
      List.filter_sublist _
    have hpair : List.Pairwise (fun a b : String × Team =>
        (decide (b.2.total_projects ≤ a.2.total_projects)) = true)
        (st.teams_data.filter (fun p => p.2.total_projects = v)) := by
      refine List.pairwise_of_forall_mem_list ?_
      intro a ha b hb
      have ha' := (List.mem_filter.mp ha).2
      have hb' := (List.mem_filter.mp hb).2
      simp only [decide_eq_true_eq] at *
      omega
    have hsl := List.sublist_mergeSort htrans htotal hpair hf
    have hsl2 : (st.teams_data.filter (fun p => p.2.total_projects = v)).Sublist
        ((get_leaderboard st).filter (fun p => p.2.total_projects = v)) := by
      have h2 := hsl.filter (fun p => p.2.total_projects = v)
      rwa [List.filter_filter, show ((fun p : String × Team =>
        decide (p.2.total_projects = v) && decide (p.2.total_projects = v))) =
        (fun p : String × Team => decide (p.2.total_projects = v)) from
        funext (fun p => by
          cases h : decide (p.2.total_projects = v) <;> simp [h])] at h2
    have hperm := (List.mergeSort_perm st.teams_data
      (fun a b => decide (b.2.total_projects ≤ a.2.total_projects))).filter
      (fun p => p.2.total_projects = v)
    exact (hsl2.eq_of_length hperm.length_eq.symm).symm
  · simp [get_leaderboard, demoTeams, List.mergeSort]

/-! ### Persistence -/

/-- One encoded project decodes back to itself. -/
theorem decodeProject_encodeProject (p : Project) :
    decodeProject (encodeProject p) = some p := rfl

/-- Elementwise decoding inverts elementwise encoding of a JSON array. -/
theorem decodeList_map {α : Type} (f : JValue → Option α) (g : α → JValue)
    (hfg : ∀ x, f (g x) = some x) :
    ∀ l : List α, decodeList f (l.map g) = some l := by
  intro l
  induction l with
  | nil => rfl
  | cons x xs ih => simp [decodeList, hfg x, ih]

/-- One encoded team decodes back to itself. -/
theorem decodeTeam_encodeTeam (t : Team) :
    decodeTeam (encodeTeam t) = some t := by
  have h := decodeList_map decodeProject encodeProject
    decodeProject_encodeProject t.projects
  simp [encodeTeam, decodeTeam, dictFind, h]

/-- One encoded challenge decodes back to itself. -/
theorem decodeChallenge_encodeChallenge (c : Challenge) :
    decodeChallenge (encodeChallenge c) = some c := rfl

/-- Valuewise decoding inverts valuewise encoding of a JSON object. -/
theorem decodeMapFields_map {α : Type} (f : JValue → Option α) (g : α → JValue)
    (hfg : ∀ x, f (g x) = some x) :
    ∀ l : List (String × α),
      decodeMapFields f (l.map (fun p => (p.1, g p.2))) = some l := by
  intro l
  induction l with
  | nil => rfl
  | cons p rest ih => simp [decodeMapFields, hfg p.2, ih]

/-- The encoded `teams` mapping decodes back to itself. -/
theorem decodeTeams_encodeTeams (ts : List (String × Team)) :
    decodeTeams (encodeTeams ts) = some ts := by
  simpa [decodeTeams, encodeTeams, decodeMap] using
    decodeMapFields_map decodeTeam encodeTeam decodeTeam_encodeTeam ts

/-- The encoded `challenges` mapping decodes back to itself. -/
theorem decodeChallenges_encodeChallenges (cs : List (String × Challenge)) :
    decodeChallenges (encodeChallenges cs) = some cs := by
  simpa [decodeChallenges, encodeChallenges, decodeMap] using
    decodeMapFields_map decodeChallenge encodeChallenge
      decodeChallenge_encodeChallenge cs

/-- Claim C6: `save_to_json` followed by `load_from_json` on the
unmodified written document restores exactly the saved `teams_data` and
`challenges_data` (the saved `last_updated` timestamp is not restored
into the state), for every state and whatever state held before the
load. -/
theorem claim_C6_persistence_round_trip (st : ScraperState) (now : String)
    (st' : ScraperState) :
    load_from_json (.content (save_to_json st now)) st' = .ok st := by
  simp [save_to_json, load_from_json, dictFind, decodeTeams_encodeTeams,
    decodeChallenges_encodeChallenges]

/-- Claim C8: `load_from_json` keeps the state unchanged when the file
is missing; a malformed file propagates the parse failure (no state is
assigned); an existing JSON object populates the state from its `teams`
and `challenges` keys, each defaulting to the empty mapping when the key
is absent. -/
theorem claim_C8_load_semantics (st : ScraperState)
    (fields : List (String × JValue))
    (t : List (String × Team)) (c : List (String × Challenge)) :
    load_from_json .missing st = .ok st
    ∧ load_from_json .malformed st = .error ()
    ∧ (decodeTeams ((dictFind "teams" fields).getD (.obj [])) = some t →
       decodeChallenges ((dictFind "challenges" fields).getD (.obj [])) =
         some c →
       load_from_json (.content (.obj fields)) st = .ok ⟨t, c⟩)
    ∧ load_from_json (.content (.obj [])) st = .ok ⟨[], []⟩ := by
  refine ⟨rfl, rfl, ?_, rfl⟩
  intro h1 h2
  simp [load_from_json, h1, h2]

/-- Witness for C8 on a document carrying only a `last_updated` key:
both mappings default to empty. -/
theorem claim_C8_witness :
    load_from_json (.content (.obj [("last_updated", .str "x")])) ⟨[], []⟩ =
      .ok ⟨[], []⟩ :=
  (claim_C8_load_semantics ⟨[], []⟩ [("last_updated", .str "x")] [] []).2.2.1
    rfl rfl

/-! ### Aggregator invariants -/

/-- Every record yielded by `fetch_teams_for_challenge` carries a name
that passed the validator. -/
theorem fetch_teams_name_valid (page : Fetch (Option (List String)))
    (cid cname : String) :
    ∀ tr ∈ fetch_teams_for_challenge page cid cname,
      is_valid_team_name tr.name = true := by
  intro tr htr
  cases page with
  | exn => simp [fetch_teams_for_challenge] at htr
  | http status body =>
    by_cases hs : status = 200
    · subst hs
      cases body with
      | none => simp [fetch_teams_for_challenge] at htr
      | some items =>
        simp only [fetch_teams_for_challenge, ne_eq, not_true_eq_false,
          if_false, reduceIte] at htr
        rcases List.mem_map.mp htr with ⟨t, ht, rfl⟩
        have hmem := (mem_pySetDedup _ t).mp ht
        exact (List.mem_filter.mp hmem).2
    · simp [fetch_teams_for_challenge, hs] at htr

/-- One `addTeamRec` step preserves the aggregation invariant: every
entry is keyed by a scraped, validator-passing name, has zero
`completed_projects`, only incomplete projects, and at most one project
per challenge id. -/
theorem addTeamRec_preserve (site : Site) (now : String) (t : TeamRec)
    (hval : is_valid_team_name t.name = true)
    (hscr : t.name ∈ scrapedNames site) :
    ∀ acc : List (String × Team),
      (∀ q ∈ acc, q.1 ∈ scrapedNames site
        ∧ is_valid_team_name q.1 = true
        ∧ q.2.completed_projects = 0
        ∧ (∀ p ∈ q.2.projects, p.completed = false)
        ∧ (∀ cid, (q.2.projects.filter
            (fun p => p.challenge_id = cid)).length ≤ 1)) →
      (∀ q ∈ addTeamRec now acc t, q.1 ∈ scrapedNames site
        ∧ is_valid_team_name q.1 = true
        ∧ q.2.completed_projects = 0
        ∧ (∀ p ∈ q.2.projects, p.completed = false)
        ∧ (∀ cid, (q.2.projects.filter
            (fun p => p.challenge_id = cid)).length ≤ 1)) := by
  intro acc hacc
  simp only [addTeamRec]
  set A := (if (dictFind t.name acc).isSome then acc
    else acc ++ [(t.name, initTeam now)]) with hA
  have h1 : ∀ q ∈ A, q.1 ∈ scrapedNames site
      ∧ is_valid_team_name q.1 = true
      ∧ q.2.completed_projects = 0
      ∧ (∀ p ∈ q.2.projects, p.completed = false)
      ∧ (∀ cid, (q.2.projects.filter
          (fun p => p.challenge_id = cid)).length ≤ 1) := by
    intro q hq
    by_cases hf : (dictFind t.name acc).isSome
    · rw [hA, if_pos hf] at hq; exact hacc q hq
    · rw [hA, if_neg hf] at hq
      rcases List.mem_append.mp hq with h | h
      · exact hacc q h
      · rcases List.mem_singleton.mp h with rfl
        exact ⟨hscr, hval, rfl, by simp [initTeam], by simp [initTeam]⟩
  cases hfind : dictFind t.name A with
  | none => simpa [hfind] using h1
  | some td =>
    have htd := h1 (t.name, td) (dictFind_mem _ _ _ hfind)
    by_cases hany : (td.projects.any
        (fun p => p.challenge_id = t.challenge_id)) = true
    · simpa [hfind, hany] using h1
    · simp only [hfind, hany, Bool.false_eq_true, if_false, reduceIte]
      intro q hq
      rcases mem_dictInsert q t.name _ A hq with hq1 | hq1
      · rw [hq1]
        refine ⟨hscr, hval, htd.2.2.1, ?_, ?_⟩
        · intro p hp
          rcases List.mem_append.mp hp with h | h
          · exact htd.2.2.2.1 p h
          · rcases List.mem_singleton.mp h with rfl
            rfl
        · intro cid
          rw [List.filter_append]
          have hnone : ∀ p ∈ td.projects, p.challenge_id ≠ t.challenge_id := by
            rw [Bool.not_eq_true] at hany
            rw [List.any_eq_false] at hany
            intro p hp
            simpa using hany p hp
          by_cases hcid : t.challenge_id = cid
          · have hps : td.projects.filter
                (fun p => decide (p.challenge_id = cid)) = [] := by
              rw [List.filter_eq_nil_iff]
              intro p hp
              simp [hnone p hp, hcid ▸ (hnone p hp)]
            rw [hps]
            simpa using List.length_filter_le _ _
          · have hproj : ([(⟨t.challenge_name, t.challenge_id, false⟩ :
                Project)].filter (fun p => decide (p.challenge_id = cid))) = [] := by
              simp [hcid]
            rw [hproj]
            simpa using htd.2.2.2.2 cid
      · exact h1 q hq1


/-- Master invariant of one aggregation pass: every entry of the
returned mapping is keyed by a scraped, validator-passing name and its
team value has consistent counters, only incomplete projects, and at
most one project per challenge id. -/
theorem fetch_all_data_entries (site : Site) (now : String) (st : ScraperState) :
    ∀ q ∈ (fetch_all_data site now st).2,
      q.1 ∈ scrapedNames site
      ∧ is_valid_team_name q.1 = true
      ∧ q.2.total_projects = q.2.projects.length
      ∧ q.2.completed_projects = 0
      ∧ q.2.progress = 0
      ∧ (∀ p ∈ q.2.projects, p.completed = false)
      ∧ (∀ cid, (q.2.projects.filter
          (fun p => p.challenge_id = cid)).length ≤ 1) := by
  have houter : ∀ q ∈ ((fetch_challenges_list site.challengesPage).foldl
      (fun acc c => (fetch_teams_for_challenge (site.teamPages c.id) c.id
        c.name).foldl (addTeamRec now) acc) []),
      q.1 ∈ scrapedNames site
      ∧ is_valid_team_name q.1 = true
      ∧ q.2.completed_projects = 0
      ∧ (∀ p ∈ q.2.projects, p.completed = false)
      ∧ (∀ cid, (q.2.projects.filter
          (fun p => p.challenge_id = cid)).length ≤ 1) := by
    refine foldl_preserve
      (fun acc : List (String × Team) => ∀ q ∈ acc,
        q.1 ∈ scrapedNames site
        ∧ is_valid_team_name q.1 = true
        ∧ q.2.completed_projects = 0
        ∧ (∀ p ∈ q.2.projects, p.completed = false)
        ∧ (∀ cid, (q.2.projects.filter
            (fun p => p.challenge_id = cid)).length ≤ 1))
      (fun acc c => (fetch_teams_for_challenge (site.teamPages c.id) c.id
        c.name).foldl (addTeamRec now) acc)
      (fetch_challenges_list site.challengesPage) ?_ []
      (by intro q hq; simp at hq)
    intro c hc acc hacc
    refine foldl_preserve
      (fun acc : List (String × Team) => ∀ q ∈ acc,
        q.1 ∈ scrapedNames site
        ∧ is_valid_team_name q.1 = true
        ∧ q.2.completed_projects = 0
        ∧ (∀ p ∈ q.2.projects, p.completed = false)
        ∧ (∀ cid, (q.2.projects.filter
            (fun p => p.challenge_id = cid)).length ≤ 1))
      (addTeamRec now)
      (fetch_teams_for_challenge (site.teamPages c.id) c.id c.name) ?_ acc hacc
    intro t ht acc' hacc'
    have hval := fetch_teams_name_valid _ _ _ t ht
    have hscr : t.name ∈ scrapedNames site :=
      List.mem_flatMap.mpr ⟨c, hc, List.mem_map.mpr ⟨t, ht, rfl⟩⟩
    exact addTeamRec_preserve site now t hval hscr acc' hacc'
  intro q hq
  have hq' : q ∈ (((fetch_challenges_list site.challengesPage).foldl
      (fun acc c => (fetch_teams_for_challenge (site.teamPages c.id) c.id
        c.name).foldl (addTeamRec now) acc) []).map
      (fun p => (p.1, finalizeTeam p.2))) := hq
  rcases List.mem_map.mp hq' with ⟨p, hp, rfl⟩
  obtain ⟨hscr, hval, hcp, hcompl, hfil⟩ := houter p hp
  exact ⟨hscr, hval, rfl, hcp, rfl, hcompl, hfil⟩


/-- Lookup commutes with valuewise mapping. -/
theorem dictFind_mapVal (g : Team → Team) (n : String)
    (d : List (String × Team)) :
    dictFind n (mapVal g d) = (dictFind n d).map g := by
  induction d with
  | nil => rfl
  | cons q rest ih =>
    obtain ⟨k', v'⟩ := q
    by_cases hk : k' = n
    · subst hk; simp [mapVal, dictFind]
    · simp only [mapVal, List.map_cons, dictFind, if_neg hk] at ih ⊢
      exact ih

/-- Insertion commutes with valuewise mapping. -/
theorem dictInsert_mapVal (g : Team → Team) (k : String) (v : Team)
    (d : List (String × Team)) :
    dictInsert k (g v) (mapVal g d) = mapVal g (dictInsert k v d) := by
  induction d with
  | nil => rfl
  | cons q rest ih =>
    obtain ⟨k', v'⟩ := q
    by_cases hk : k' = k
    · subst hk; simp [mapVal, dictInsert]
    · simp only [mapVal, List.map_cons, dictInsert, if_neg hk] at ih ⊢
      rw [ih]

/-- Lookup in a concatenation prefers the first dict. -/
theorem dictFind_append {α : Type} (k : String)
    (d1 d2 : List (String × α)) :
    dictFind k (d1 ++ d2) =
      match dictFind k d1 with
      | some v => some v
      | none => dictFind k d2 := by
  induction d1 with
  | nil => rfl
  | cons q rest ih =>
    obtain ⟨k', v'⟩ := q
    by_cases hk : k' = k
    · subst hk; simp [dictFind]
    · simp only [List.cons_append, dictFind, if_neg hk]
      exact ih

/-- One aggregation step at clock `now2` equals the step at clock `now1`
with all timestamps replaced: only `last_updated` depends on the
clock. -/
theorem addTeamRec_stamp (now1 now2 : String) (t : TeamRec)
    (acc : List (String × Team)) :
    addTeamRec now2 (mapVal (stampTeam now2) acc) t =
      mapVal (stampTeam now2) (addTeamRec now1 acc t) := by
  simp only [addTeamRec]
  cases hd : dictFind t.name acc with
  | some td =>
    have hd2 : dictFind t.name (mapVal (stampTeam now2) acc) =
        some (stampTeam now2 td) := by
      rw [dictFind_mapVal, hd]; rfl
    simp only [hd, hd2, Option.isSome_some, if_true, reduceIte]
    by_cases hany : (td.projects.any
        (fun p => p.challenge_id = t.challenge_id)) = true
    · simp [stampTeam, hany]
    · simp only [stampTeam, hany, Bool.false_eq_true, if_false, reduceIte]
      exact dictInsert_mapVal (stampTeam now2) t.name
        { td with projects :=
            td.projects ++ [⟨t.challenge_name, t.challenge_id, false⟩] } acc
  | none =>
    have hd2 : dictFind t.name (mapVal (stampTeam now2) acc) = none := by
      rw [dictFind_mapVal, hd]; rfl
    simp only [hd, hd2, Option.isSome_none, Bool.false_eq_true, if_false,
      reduceIte]
    have hL : mapVal (stampTeam now2) acc ++ [(t.name, initTeam now2)] =
        mapVal (stampTeam now2) (acc ++ [(t.name, initTeam now1)]) := by
      simp [mapVal, stampTeam, initTeam]
    rw [hL]
    have hfound : dictFind t.name (acc ++ [(t.name, initTeam now1)]) =
        some (initTeam now1) := by
      rw [dictFind_append, hd]
      simp [dictFind]
    have hfound2 : dictFind t.name
        (mapVal (stampTeam now2) (acc ++ [(t.name, initTeam now1)])) =
        some (stampTeam now2 (initTeam now1)) := by
      rw [dictFind_mapVal, hfound]; rfl
    rw [hfound, hfound2]
    simp only [stampTeam, initTeam, List.any_nil, Bool.false_eq_true,
      if_false, reduceIte]
    exact dictInsert_mapVal (stampTeam now2) t.name
      { initTeam now1 with projects :=
          [⟨t.challenge_name, t.challenge_id, false⟩] }
      (acc ++ [(t.name, initTeam now1)])

/-- Two passes over the same site differ only in the `last_updated`
timestamps, whatever the prior states were. -/
theorem fetch_all_data_stamp (site : Site) (now1 now2 : String)
    (st1 st2 : ScraperState) :
    (fetch_all_data site now2 st2).2 =
      mapVal (stampTeam now2) ((fetch_all_data site now1 st1).2) := by
  have hfold : ((fetch_challenges_list site.challengesPage).foldl
      (fun acc c => (fetch_teams_for_challenge (site.teamPages c.id) c.id
        c.name).foldl (addTeamRec now2) acc) []) =
      mapVal (stampTeam now2)
        ((fetch_challenges_list site.challengesPage).foldl
          (fun acc c => (fetch_teams_for_challenge (site.teamPages c.id) c.id
            c.name).foldl (addTeamRec now1) acc) []) := by
    have h := foldl_comm_map
      (fun acc c => (fetch_teams_for_challenge (site.teamPages c.id) c.id
        c.name).foldl (addTeamRec now1) acc)
      (fun acc c => (fetch_teams_for_challenge (site.teamPages c.id) c.id
        c.name).foldl (addTeamRec now2) acc)
      (mapVal (stampTeam now2))
      (fun acc c => foldl_comm_map (addTeamRec now1) (addTeamRec now2)
        (mapVal (stampTeam now2))
        (fun acc' t => addTeamRec_stamp now1 now2 t acc')
        (fetch_teams_for_challenge (site.teamPages c.id) c.id c.name) acc)
      (fetch_challenges_list site.challengesPage) []
    simpa [mapVal] using h
  show (((fetch_challenges_list site.challengesPage).foldl
      (fun acc c => (fetch_teams_for_challenge (site.teamPages c.id) c.id
        c.name).foldl (addTeamRec now2) acc) []).map
      (fun p => (p.1, finalizeTeam p.2))) =
    mapVal (stampTeam now2)
      (((fetch_challenges_list site.challengesPage).foldl
        (fun acc c => (fetch_teams_for_challenge (site.teamPages c.id) c.id
          c.name).foldl (addTeamRec now1) acc) []).map
        (fun p => (p.1, finalizeTeam p.2)))
  rw [hfold]
  simp only [mapVal, List.map_map]
  rfl

/-- Claim C1: one `fetch_all_data` pass fully replaces the in-memory
state: the result is independent of the prior `teams_data` /
`challenges_data` (the prior state is never read), the stored mapping
is the returned mapping, a name absent from the new scrape is absent
from the result, and re-running against unchanged pages (at any clock
and from any prior state) yields teams with identical `total_projects`
counts. -/
theorem claim_C1_full_replace (site : Site) (now now1 now2 : String)
    (st st1 st2 : ScraperState) (n : String) :
    (fetch_all_data site now st1 = fetch_all_data site now st2)
    ∧ ((fetch_all_data site now st).1.teams_data =
        (fetch_all_data site now st).2)
    ∧ (dictFind n (fetch_all_data site now st).2 ≠ none →
        n ∈ scrapedNames site)
    ∧ ((dictFind n (fetch_all_data site now1 st1).2).map Team.total_projects =
        (dictFind n (fetch_all_data site now2 st2).2).map
          Team.total_projects) := by
  refine ⟨rfl, rfl, ?_, ?_⟩
  · intro h
    cases hfind : dictFind n (fetch_all_data site now st).2 with
    | none => exact absurd hfind h
    | some td =>
      exact (fetch_all_data_entries site now st (n, td)
        (dictFind_mem _ _ _ hfind)).1
  · rw [fetch_all_data_stamp site now1 now2 st1 st2, dictFind_mapVal]
    cases dictFind n (fetch_all_data site now1 st1).2 <;> rfl

/-- Witness for C1 on the sample site: the scraped team is present and
its name is indeed among the scraped names. -/
theorem claim_C1_witness :
    (dictFind "Team Alpha" (fetch_all_data sampleSite "T0" ⟨[], []⟩).2 ≠ none)
    ∧ "Team Alpha" ∈ scrapedNames sampleSite :=
  ⟨by decide,
   (claim_C1_full_replace sampleSite "T0" "T0" "T0" ⟨[], []⟩ ⟨[], []⟩ ⟨[], []⟩
     "Team Alpha").2.2.1 (by decide)⟩

/-- Claim C2: in the mapping produced by `fetch_all_data`, every team's
project list contains at most one project per challenge id. -/
theorem claim_C2_no_duplicate_projects (site : Site) (now : String)
    (st : ScraperState) (n : String) (td : Team)
    (h : dictFind n (fetch_all_data site now st).2 = some td) :
    ∀ cid, (td.projects.filter (fun p => p.challenge_id = cid)).length ≤ 1 :=
  (fetch_all_data_entries site now st (n, td)
    (dictFind_mem _ _ _ h)).2.2.2.2.2.2

/-- Witness for C2 on the sample site at challenge id 42. -/
theorem claim_C2_witness :
    (dictFind "Team Alpha" (fetch_all_data sampleSite "T0" ⟨[], []⟩).2 =
      some ⟨[⟨"Relever le défi", "42", false⟩], 1, 0, 0, "T0"⟩)
    ∧ (((Team.mk [⟨"Relever le défi", "42", false⟩] 1 0 0 "T0").projects.filter
        (fun p => p.challenge_id = "42")).length ≤ 1) :=
  ⟨by decide,
   claim_C2_no_duplicate_projects sampleSite "T0" ⟨[], []⟩ "Team Alpha"
     ⟨[⟨"Relever le défi", "42", false⟩], 1, 0, 0, "T0"⟩ (by decide) "42"⟩

/-- Claim C9: after `fetch_all_data`, every team has
`total_projects = length projects`, `completed_projects = 0`,
`progress = 0`, and only projects with `completed = false`. -/
theorem claim_C9_team_counters (site : Site) (now : String)
    (st : ScraperState) (n : String) (td : Team)
    (h : dictFind n (fetch_all_data site now st).2 = some td) :
    td.total_projects = td.projects.length
    ∧ td.completed_projects = 0
    ∧ td.progress = 0
    ∧ ∀ p ∈ td.projects, p.completed = false := by
  obtain ⟨-, -, h3, h4, h5, h6, -⟩ :=
    fetch_all_data_entries site now st (n, td) (dictFind_mem _ _ _ h)
  exact ⟨h3, h4, h5, h6⟩

/-- Witness for C9 on the sample site. -/
theorem claim_C9_witness :
    (Team.mk [⟨"Relever le défi", "42", false⟩] 1 0 0 "T0").total_projects =
      (Team.mk [⟨"Relever le défi", "42", false⟩] 1 0 0 "T0").projects.length
    ∧ (Team.mk [⟨"Relever le défi", "42", false⟩] 1 0 0 "T0").completed_projects
        = 0 :=
  ⟨(claim_C9_team_counters sampleSite "T0" ⟨[], []⟩ "Team Alpha"
      ⟨[⟨"Relever le défi", "42", false⟩], 1, 0, 0, "T0"⟩ (by decide)).1,
   (claim_C9_team_counters sampleSite "T0" ⟨[], []⟩ "Team Alpha"
      ⟨[⟨"Relever le défi", "42", false⟩], 1, 0, 0, "T0"⟩ (by decide)).2.1⟩

/-- Claim C10: every team-name key produced by `fetch_all_data` passes
`is_valid_team_name`; in particular it is non-empty, has length between
2 and 50, contains no blocklist keyword in lower-case form, and starts
with an upper-case character. -/
theorem claim_C10_keys_validated (site : Site) (now : String)
    (st : ScraperState) (n : String) (td : Team)
    (h : dictFind n (fetch_all_data site now st).2 = some td) :
    is_valid_team_name n = true
    ∧ n ≠ ""
    ∧ 2 ≤ n.length
    ∧ n.length ≤ 50
    ∧ (∀ w ∈ junk_keywords, containsSub w.data (pyLower n).data = false)
    ∧ pyIsUpperChar (n.data.headD ' ') = true := by
  have hval := (fetch_all_data_entries site now st (n, td)
    (dictFind_mem _ _ _ h)).2.1
  have hc := (is_valid_team_name_iff n).mp hval
  exact ⟨hval, hc.1, hc.2.1, hc.2.2.1, hc.2.2.2.1, hc.2.2.2.2⟩

/-- Witness for C10 on the sample site. -/
theorem claim_C10_witness :
    is_valid_team_name "Team Alpha" = true
    ∧ 2 ≤ ("Team Alpha" : String).length :=
  ⟨(claim_C10_keys_validated sampleSite "T0" ⟨[], []⟩ "Team Alpha"
      ⟨[⟨"Relever le défi", "42", false⟩], 1, 0, 0, "T0"⟩ (by decide)).1,
   (claim_C10_keys_validated sampleSite "T0" ⟨[], []⟩ "Team Alpha"
      ⟨[⟨"Relever le défi", "42", false⟩], 1, 0, 0, "T0"⟩ (by decide)).2.2.1⟩

end NuitInfo
